import Mathlib

/-!
Verification development for the CalDAV translation layer of the iCalendar
repository (`src/mcp_ical/models.py` and `src/mcp_ical/caldav_client.py`).

Python strings are embedded as lists of characters (`Str`), Python `datetime`
values as the naive `PyDateTime` record (timezone handling is out of scope for
this layer), fallible Python code as `Except`/`Option` values, and the vobject
record handled by the codec as the structured `VEvent`/`VCalendar` records.
-/

namespace McpIcal

/-- A Python `str`, embedded as its list of characters. -/
abbrev Str := List Char

/-- Python `s.split(c)` for a single-character separator: every occurrence of
the separator splits, empty segments are kept, and the empty string yields a
single empty segment. -/
def splitOnChar (c : Char) : Str → List Str
  | [] => [[]]
  | x :: xs =>
    if x = c then [] :: splitOnChar c xs
    else
      match splitOnChar c xs with
      | [] => [[x]]
      | r :: rs => (x :: r) :: rs

/-- Python `c.join(parts)` for a single-character separator. -/
def joinSep (c : Char) : List Str → Str
  | [] => []
  | [p] => p
  | p :: ps => p ++ c :: joinSep c ps

/-- Python `s.split(c, 1)` restricted to the case used by the source:
`none` when the separator does not occur, otherwise the text before and after
its first occurrence. -/
def splitFirst (c : Char) : Str → Option (Str × Str)
  | [] => none
  | x :: xs =>
    if x = c then some ([], xs)
    else (splitFirst c xs).map (fun p => (x :: p.1, p.2))

/-- The ASCII digit character for a value below ten. -/
def digitChar (n : Nat) : Char := Char.ofNat (48 + n)

/-- The numeric value of an ASCII digit character. -/
def digitVal (c : Char) : Nat := c.toNat - 48

/-- Decimal rendering of a natural number, with explicit recursion fuel so the
definition is structural (the fuel is always sufficient). -/
def natToCharsAux : Nat → Nat → Str
  | 0, _ => []
  | fuel + 1, n =>
    if n < 10 then [digitChar n]
    else natToCharsAux fuel (n / 10) ++ [digitChar (n % 10)]

/-- Decimal rendering of a natural number, most significant digit first;
models Python's `str`/f-string formatting of a non-negative `int`. -/
def natToChars (n : Nat) : Str := natToCharsAux (n + 1) n

/-- Decimal rendering of a Python `int`, with a leading minus sign when
negative. -/
def intToChars (i : Int) : Str :=
  if i < 0 then '-' :: natToChars i.natAbs else natToChars i.natAbs

/-- Value of a string of decimal digits, most significant first. -/
def parseNatDigits (s : Str) : Nat := s.foldl (fun a c => a * 10 + digitVal c) 0

/-- Digit-string recognition: `some` exactly on non-empty all-digit strings. -/
def parseNatOpt (s : Str) : Option Nat :=
  if s.isEmpty then none
  else if s.all Char.isDigit then some (parseNatDigits s) else none

/-- Python `int(s)`: an optional sign followed by decimal digits. (The
whitespace and underscore forms Python also accepts never occur in this
system's data and are not modelled.) A parse failure models the raised
`ValueError`. -/
def intParse (s : Str) : Option Int :=
  match s with
  | [] => none
  | c :: rest =>
    if c = '-' then (parseNatOpt rest).map (fun n => -(n : Int))
    else if c = '+' then (parseNatOpt rest).map (fun n => (n : Int))
    else (parseNatOpt (c :: rest)).map (fun n => (n : Int))

/-- Value of one hexadecimal digit character, `none` otherwise. -/
def hexVal (c : Char) : Option Nat :=
  if '0' ≤ c ∧ c ≤ '9' then some (c.toNat - 48)
  else if 'A' ≤ c ∧ c ≤ 'F' then some (c.toNat - 55)
  else if 'a' ≤ c ∧ c ≤ 'f' then some (c.toNat - 87)
  else none

/-- `urllib.parse.unquote` at the character level: a `%` followed by two hex
digits becomes the character with that code, anything else passes through.
(Multi-byte UTF-8 percent sequences do not occur in the inputs considered
here and are not modelled.) -/
def unquote : Str → Str
  | '%' :: a :: b :: rest =>
    match hexVal a, hexVal b with
    | some x, some y => Char.ofNat (16 * x + y) :: unquote rest
    | _, _ => '%' :: unquote (a :: b :: rest)
  | c :: rest => c :: unquote rest
  | [] => []

/-- A naive Python `datetime` (year 1–9999, microsecond precision). Timezone
awareness is not modelled: this layer performs no timezone handling. -/
structure PyDateTime where
  year : Nat
  month : Nat
  day : Nat
  hour : Nat
  minute : Nat
  second : Nat
  usec : Nat
deriving DecidableEq, Repr

/-- Gregorian leap-year test, as in Python's `calendar`/`datetime`. -/
def isLeapYear (y : Nat) : Bool :=
  (y % 4 = 0 && y % 100 ≠ 0) || y % 400 = 0

/-- Days in a month of the Gregorian calendar. -/
def daysInMonth (y m : Nat) : Nat :=
  if m = 2 then (if isLeapYear y then 29 else 28)
  else if m = 4 ∨ m = 6 ∨ m = 9 ∨ m = 11 then 30
  else 31

/-- The invariants Python's `datetime` constructor enforces (together with the
field bounds `strptime`'s format directives impose). -/
def PyDateTime.valid (d : PyDateTime) : Bool :=
  1 ≤ d.year && d.year ≤ 9999 && 1 ≤ d.month && d.month ≤ 12 &&
  1 ≤ d.day && d.day ≤ daysInMonth d.year d.month &&
  d.hour ≤ 23 && d.minute ≤ 59 && d.second ≤ 59 && d.usec ≤ 999999

/-- `datetime.strftime("%Y%m%dT%H%M%SZ")`: the year unpadded (four digits for
the years 1000–9999 this system handles), the remaining fields zero-padded to
two digits; microseconds are dropped. -/
def pad2 (n : Nat) : Str := if n < 10 then '0' :: natToChars n else natToChars n

/-- The compact UTC literal the recurrence encoder writes for `UNTIL`. -/
def formatUntil (d : PyDateTime) : Str :=
  natToChars d.year ++ pad2 d.month ++ pad2 d.day ++
    'T' :: (pad2 d.hour ++ pad2 d.minute ++ pad2 d.second ++ ['Z'])

/-- Read exactly `k` decimal digits from the front of a string, returning
their value and the rest. -/
def readDigits (k : Nat) (s : Str) : Option (Nat × Str) :=
  if (s.take k).length = k ∧ (s.take k).all Char.isDigit then
    some (parseNatDigits (s.take k), s.drop k)
  else none

/-- `datetime.strptime(s, "%Y%m%dT%H%M%SZ")` on the fixed-width form this
system writes; `none` models the raised `ValueError` (unparsed input, a field
out of range, or an invalid calendar date). -/
def parseUntilDateTime (s : Str) : Option PyDateTime :=
  match readDigits 4 s with
  | none => none
  | some (y, s1) =>
    match readDigits 2 s1 with
    | none => none
    | some (mo, s2) =>
      match readDigits 2 s2 with
      | none => none
      | some (dy, s3) =>
        match s3 with
        | 'T' :: s4 =>
          match readDigits 2 s4 with
          | none => none
          | some (h, s5) =>
            match readDigits 2 s5 with
            | none => none
            | some (mi, s6) =>
              match readDigits 2 s6 with
              | none => none
              | some (se, s7) =>
                match s7 with
                | ['Z'] =>
                  let d : PyDateTime := ⟨y, mo, dy, h, mi, se, 0⟩
                  if d.valid then some d else none
                | _ => none
        | _ => none

/-- `datetime.strptime(s, "%Y%m%d")` on the fixed-width date-only form. -/
def parseUntilDate (s : Str) : Option PyDateTime :=
  match readDigits 4 s with
  | none => none
  | some (y, s1) =>
    match readDigits 2 s1 with
    | none => none
    | some (mo, s2) =>
      match readDigits 2 s2 with
      | none => none
      | some (dy, s3) =>
        match s3 with
        | [] =>
          let d : PyDateTime := ⟨y, mo, dy, 0, 0, 0, 0⟩
          if d.valid then some d else none
        | _ => none

instance {ε α : Type} [DecidableEq ε] [DecidableEq α] : DecidableEq (Except ε α)
  | .error e, .error f => decidable_of_iff (e = f) (by simp)
  | .error _, .ok _ => isFalse (by simp)
  | .ok _, .error _ => isFalse (by simp)
  | .ok a, .ok b => decidable_of_iff (a = b) (by simp)

/-- `Frequency(IntEnum)` from `models.py`. -/
inductive Frequency where
  | daily
  | weekly
  | monthly
  | yearly
deriving DecidableEq, Repr

/-- `Weekday(IntEnum)` from `models.py` (1=Sunday … 7=Saturday). -/
inductive Weekday where
  | sunday
  | monday
  | tuesday
  | wednesday
  | thursday
  | friday
  | saturday
deriving DecidableEq, Repr

/-- The `RecurrenceRule` pydantic model's data. Field types follow the
source: `interval`/`occurrence_count` are unrestricted Python ints at the
field level (the `ge=1` bound on `interval` and the end-condition exclusivity
are enforced by `mkRecurrenceRule` below, as pydantic does at construction). -/
structure RecurrenceRule where
  frequency : Frequency
  interval : Int
  end_date : Option PyDateTime
  occurrence_count : Option Int
  days_of_week : Option (List Weekday)
deriving DecidableEq, Repr

/-- Constructing a `RecurrenceRule`: pydantic validates `interval ≥ 1`
(`Field(ge=1)`) and then `validate_end_conditions` rejects having both
`end_date` and `occurrence_count` set. An `error` models the raised
`ValidationError`. -/
def mkRecurrenceRule (frequency : Frequency) (interval : Int)
    (end_date : Option PyDateTime) (occurrence_count : Option Int)
    (days_of_week : Option (List Weekday)) : Except String RecurrenceRule :=
  if interval < 1 then .error "interval: input should be greater than or equal to 1"
  else if end_date.isSome ∧ occurrence_count.isSome then
    .error "Only one of end_date or occurrence_count can be set"
  else .ok ⟨frequency, interval, end_date, occurrence_count, days_of_week⟩

/-- `frequency_map.get(parts.get('FREQ', 'DAILY'), 0)` composed with the
`Frequency` enum: unknown names (and a missing key, via the default) map to
`DAILY`. -/
def freqOfName (s : Str) : Frequency :=
  if s = "DAILY".data then .daily
  else if s = "WEEKLY".data then .weekly
  else if s = "MONTHLY".data then .monthly
  else if s = "YEARLY".data then .yearly
  else .daily

/-- The `frequency_map` of `_recurrence_rule_to_ical`. -/
def freqName : Frequency → Str
  | .daily => "DAILY".data
  | .weekly => "WEEKLY".data
  | .monthly => "MONTHLY".data
  | .yearly => "YEARLY".data

/-- The `weekday_map` of `from_ical_string`: two-letter `BYDAY` tokens not in
the map are dropped individually. -/
def weekdayOfToken (s : Str) : Option Weekday :=
  if s = "SU".data then some .sunday
  else if s = "MO".data then some .monday
  else if s = "TU".data then some .tuesday
  else if s = "WE".data then some .wednesday
  else if s = "TH".data then some .thursday
  else if s = "FR".data then some .friday
  else if s = "SA".data then some .saturday
  else none

/-- The `weekday_map` of `_recurrence_rule_to_ical`. -/
def weekdayToken : Weekday → Str
  | .sunday => "SU".data
  | .monday => "MO".data
  | .tuesday => "TU".data
  | .wednesday => "WE".data
  | .thursday => "TH".data
  | .friday => "FR".data
  | .saturday => "SA".data

/-- Tokenizing of `from_ical_string`: split on `;`, keep the parts containing
`=`, split each at its first `=`. The pair list, read with `dictGet` below,
models the `parts` dict the source builds. -/
def parsePairs (s : Str) : List (Str × Str) :=
  (splitOnChar ';' s).filterMap (splitFirst '=')

/-- Lookup in the `parts` dict: a later binding of the same key overwrites an
earlier one, as Python dict insertion does. -/
def dictGet : List (Str × Str) → Str → Option Str
  | [], _ => none
  | p :: ps, k =>
    match dictGet ps k with
    | some v => some v
    | none => if p.1 = k then some p.2 else none

/-- The `BYDAY` handling of `from_ical_string`: split the value on commas,
keep tokens in the weekday map, and use the result only when non-empty. -/
def bydayOf (pairs : List (Str × Str)) : Option (List Weekday) :=
  match dictGet pairs "BYDAY".data with
  | some b =>
    if (splitOnChar ',' b).filterMap weekdayOfToken = [] then none
    else some ((splitOnChar ',' b).filterMap weekdayOfToken)
  | none => none

/-- `RecurrenceRule.from_ical_string`: the recurrence decoder. A malformed
`UNTIL` value is silently dropped, but a non-integer `INTERVAL` or `COUNT`
raises (`int(...)`), and pydantic construction can also raise; both are
`error` results. `COUNT` is only consulted when `UNTIL` is absent. -/
def fromIcalString (s : Str) : Except String RecurrenceRule :=
  match intParse ((dictGet (parsePairs s) "INTERVAL".data).getD "1".data) with
  | none => .error "invalid literal for int() in INTERVAL"
  | some interval =>
    match dictGet (parsePairs s) "UNTIL".data with
    | some u =>
      mkRecurrenceRule
        (freqOfName ((dictGet (parsePairs s) "FREQ".data).getD "DAILY".data))
        interval (if 'T' ∈ u then parseUntilDateTime u else parseUntilDate u)
        none (bydayOf (parsePairs s))
    | none =>
      match dictGet (parsePairs s) "COUNT".data with
      | some c =>
        match intParse c with
        | none => .error "invalid literal for int() in COUNT"
        | some n =>
          mkRecurrenceRule
            (freqOfName ((dictGet (parsePairs s) "FREQ".data).getD "DAILY".data))
            interval none (some n) (bydayOf (parsePairs s))
      | none =>
        mkRecurrenceRule
          (freqOfName ((dictGet (parsePairs s) "FREQ".data).getD "DAILY".data))
          interval none none (bydayOf (parsePairs s))

/-- `CalDAVManager._recurrence_rule_to_ical`: `FREQ` always, `INTERVAL` only
when greater than one, `BYDAY` only when `days_of_week` is truthy (neither
`None` nor empty), then `UNTIL` when `end_date` is set, else `COUNT` when
`occurrence_count` is truthy (set and non-zero). -/
def toIcalString (r : RecurrenceRule) : Str :=
  joinSep ';'
    (["FREQ".data ++ '=' :: freqName r.frequency] ++
     (if r.interval > 1 then ["INTERVAL".data ++ '=' :: intToChars r.interval] else []) ++
     (match r.days_of_week with
      | some (d :: ds) =>
        ["BYDAY".data ++ '=' :: joinSep ',' ((d :: ds).map weekdayToken)]
      | _ => []) ++
     (match r.end_date with
      | some d => ["UNTIL".data ++ '=' :: formatUntil d]
      | none =>
        match r.occurrence_count with
        | some c => if c = 0 then [] else ["COUNT".data ++ '=' :: intToChars c]
        | none => []))

/-- The trigger decoder inside `Event.from_caldav_event`:
`re.match(r'-PT(\d+)([HM])', trigger)`. Being `re.match`, it anchors only at
the start: the string must begin with `-PT`, one or more digits, and an `H`
or `M`; anything after that first unit marker is ignored. Hours are converted
to minutes. -/
def decodeTrigger (s : Str) : Option Nat :=
  match s with
  | '-' :: 'P' :: 'T' :: rest =>
    let digits := rest.takeWhile Char.isDigit
    if digits = [] then none
    else
      match rest.dropWhile Char.isDigit with
      | 'H' :: _ => some (parseNatDigits digits * 60)
      | 'M' :: _ => some (parseNatDigits digits)
      | _ => none
  | _ => none

/-- Modelled from the spec: the textual serialization of the alarm trigger.
`create_event`/`update_event` store `timedelta(minutes=-minutes)` on the
trigger; the serialization of that value into the trigger string happens in
the external vobject library, which is not part of this repository's sources.
Per the spec, the encoder produces a single before-start trigger "always
expressed in whole-minute units (never compacted into hour units)". -/
def encodeTrigger (m : Nat) : Str :=
  '-' :: 'P' :: 'T' :: (natToChars m ++ ['M'])

/-- A timestamp-valued vobject content line: its value and its optional
`VALUE` parameter (`DATE` marks a date-only field). -/
structure DTField where
  value : PyDateTime
  valueParam : Option Str
deriving DecidableEq, Repr

/-- A `VALARM` sub-block as the codec reads and writes it. -/
structure VAlarm where
  action : Option Str
  description : Option Str
  trigger : Option Str
deriving DecidableEq, Repr

/-- The `vevent` component of a record: each field the codec reads or writes,
the `CN`-parameter of each `ATTENDEE` block, plus the unrecognized
sub-structures the codec never touches. -/
structure VEvent where
  summary : Option Str
  dtstart : Option DTField
  dtend : Option DTField
  location : Option Str
  description : Option Str
  url : Option Str
  organizer : Option Str
  attendees : List (Option Str)
  rrule : Option Str
  last_modified : Option PyDateTime
  valarms : List VAlarm
  others : List (Str × Str)
deriving DecidableEq, Repr

/-- The parsed calendar container: `vcal.vevent` may be absent, in which case
the record is not a recognizable event record. -/
structure VCalendar where
  vevent : Option VEvent
deriving DecidableEq, Repr

/-- A `CalendarObjectResource` as the core consumes it: native identifier,
location reference (`url`), parsed body, and the owning collection's name. -/
structure CaldavRecord where
  id : Option Str
  url : Option Str
  data : VCalendar
  parentName : Option Str
deriving DecidableEq, Repr

/-- The `Event` dataclass of `models.py`. A plain dataclass performs no
validation, so missing start/end simply stay unset. The `_raw_event`
back-reference is not part of the value. -/
structure Event where
  title : Str
  start_time : Option PyDateTime
  end_time : Option PyDateTime
  identifier : Str
  calendar_name : Option Str
  location : Option Str
  notes : Option Str
  alarms_minutes_offsets : Option (List Nat)
  url : Option Str
  all_day : Bool
  has_alarms : Bool
  organizer : Option Str
  attendees : Option (List Str)
  last_modified : Option PyDateTime
  recurrence_rule : Option RecurrenceRule
deriving DecidableEq, Repr

/-- Python's `a or b` on an optional string operand: an absent or empty
string falls through to the alternative. -/
def truthyOr (a : Option Str) (b : Str) : Str :=
  match a with
  | some s => if s = [] then b else s
  | none => b

/-- Stand-in for `str(hash(str(caldav_event.data)))`, the identifier of last
resort. Python's `hash` is run-dependent (string hash randomization), so only
the fact that some string is produced is modelled; no claim depends on the
value. -/
def hashFallback (_ : CaldavRecord) : Str := "fallback-hash".data

/-- The recurrence handling inside `Event.from_caldav_event`: a present
`RRULE` text is decoded by `fromIcalString`, outside any try-block, so a
parse failure propagates. -/
def decodeRRule (o : Option Str) : Except String (Option RecurrenceRule) :=
  match o with
  | some s => (fromIcalString s).map some
  | none => .ok none

/-- The field extraction of `Event.from_caldav_event` once the `vevent`
component is at hand. -/
def decodeVEvent (r : CaldavRecord) (v : VEvent) : Except String Event :=
  match decodeRRule v.rrule with
    | .error e => .error e
    | .ok recur =>
      .ok {
        title := (v.summary).getD "No Title".data
        start_time := v.dtstart.map (·.value)
        end_time := v.dtend.map (·.value)
        identifier := truthyOr r.id (truthyOr r.url (hashFallback r))
        calendar_name := r.parentName
        location := v.location
        notes := v.description
        url := v.url
        alarms_minutes_offsets :=
          if v.valarms.filterMap (fun a => a.trigger.bind decodeTrigger) = []
          then none
          else some (v.valarms.filterMap (fun a => a.trigger.bind decodeTrigger))
        all_day :=
          match v.dtstart with
          | some f => decide (f.valueParam = some "DATE".data)
          | none => false
        has_alarms := false
        organizer := v.organizer
        attendees :=
          if v.attendees.filterMap id = [] then none
          else some (v.attendees.filterMap id)
        last_modified := v.last_modified
        recurrence_rule := recur
      }

/-- `Event.from_caldav_event`: raises when the record has no `vevent`
component; otherwise extracts fields defensively via `decodeVEvent`. -/
def fromCaldavEvent (r : CaldavRecord) : Except String Event :=
  match r.data.vevent with
  | none => .error "Event data has no vevent component"
  | some v => decodeVEvent r v

/-- `UpdateEventRequest`: every field optional; absent means leave unchanged. -/
structure UpdateEventRequest where
  title : Option Str
  start_time : Option PyDateTime
  end_time : Option PyDateTime
  calendar_name : Option Str
  location : Option Str
  notes : Option Str
  alarms_minutes_offsets : Option (List Nat)
  url : Option Str
  all_day : Option Bool
  recurrence_rule : Option RecurrenceRule
deriving DecidableEq, Repr

/-- A request that leaves every field unset. -/
def emptyRequest : UpdateEventRequest :=
  ⟨none, none, none, none, none, none, none, none, none, none⟩

/-- `vevent.summary.value = request.title`: assigning through an attribute
that the component does not have raises `AttributeError`. -/
def stepTitle (req : UpdateEventRequest) (v : VEvent) : Except String VEvent :=
  match req.title with
  | none => .ok v
  | some t =>
    match v.summary with
    | none => .error "AttributeError: summary"
    | some _ => .ok { v with summary := some t }

/-- `vevent.dtstart.value = request.start_time` (the `VALUE` parameter is left
as it was). -/
def stepStart (req : UpdateEventRequest) (v : VEvent) : Except String VEvent :=
  match req.start_time with
  | none => .ok v
  | some t =>
    match v.dtstart with
    | none => .error "AttributeError: dtstart"
    | some f => .ok { v with dtstart := some { f with value := t } }

/-- `vevent.dtend.value = request.end_time`. -/
def stepEnd (req : UpdateEventRequest) (v : VEvent) : Except String VEvent :=
  match req.end_time with
  | none => .ok v
  | some t =>
    match v.dtend with
    | none => .error "AttributeError: dtend"
    | some f => .ok { v with dtend := some { f with value := t } }

/-- `vevent.location.value = request.location`. -/
def stepLocation (req : UpdateEventRequest) (v : VEvent) : Except String VEvent :=
  match req.location with
  | none => .ok v
  | some l =>
    match v.location with
    | none => .error "AttributeError: location"
    | some _ => .ok { v with location := some l }

/-- `vevent.description.value = request.notes`. -/
def stepNotes (req : UpdateEventRequest) (v : VEvent) : Except String VEvent :=
  match req.notes with
  | none => .ok v
  | some n =>
    match v.description with
    | none => .error "AttributeError: description"
    | some _ => .ok { v with description := some n }

/-- `vevent.url.value = request.url`. -/
def stepUrl (req : UpdateEventRequest) (v : VEvent) : Except String VEvent :=
  match req.url with
  | none => .ok v
  | some u =>
    match v.url with
    | none => .error "AttributeError: url"
    | some _ => .ok { v with url := some u }

/-- The all-day toggle of `update_event`: rewrite the `VALUE` parameter on
both `dtstart` and `dtend` to `DATE` or `DATETIME`. -/
def stepAllDay (req : UpdateEventRequest) (v : VEvent) : Except String VEvent :=
  match req.all_day with
  | none => .ok v
  | some b =>
    let p : Str := if b then "DATE".data else "DATETIME".data
    match v.dtstart with
    | none => .error "AttributeError: dtstart"
    | some fs =>
      match v.dtend with
      | none => .error "AttributeError: dtend"
      | some fe =>
        .ok { v with
          dtstart := some { fs with valueParam := some p }
          dtend := some { fe with valueParam := some p } }

/-- The alarm replacement of `update_event`: when the request carries alarm
offsets, every existing `VALARM` block is removed and one display alarm per
offset is appended; each new alarm's description reads `vevent.summary.value`,
raising when the component has no summary (the access happens inside the
per-offset loop, so an empty offset list touches nothing). The stored trigger
is the spec-modelled minute-unit serialization (see `encodeTrigger`). -/
def stepAlarms (req : UpdateEventRequest) (v : VEvent) : Except String VEvent :=
  match req.alarms_minutes_offsets with
  | none => .ok v
  | some ms =>
    let cleared := { v with valarms := [] }
    ms.foldlM
      (fun w m =>
        match w.summary with
        | none => .error "AttributeError: summary"
        | some s =>
          .ok { w with
            valarms := w.valarms ++
              [⟨some "DISPLAY".data, some s, some (encodeTrigger m)⟩] })
      cleared

/-- The recurrence replacement of `update_event`: when the request carries a
rule, any existing `RRULE` is removed and, the rule object being always
truthy, a freshly encoded one is added. -/
def stepRRule (req : UpdateEventRequest) (v : VEvent) : Except String VEvent :=
  match req.recurrence_rule with
  | none => .ok v
  | some rr => .ok { v with rrule := some (toIcalString rr) }

/-- The in-place field updates of `CalDAVManager.update_event` (lines
186–228), in source order. An `error` models an uncaught `AttributeError`. -/
def patchVEvent (req : UpdateEventRequest) (v : VEvent) : Except String VEvent :=
  stepTitle req v >>= stepStart req >>= stepEnd req >>= stepLocation req >>=
    stepNotes req >>= stepUrl req >>= stepAllDay req >>= stepAlarms req >>=
    stepRRule req

/-- One calendar as the search coordinator and the resolver see it: its name,
its time-range `search` results, and its full `events()` enumeration; an
`error` on either models the store raising during that call. -/
structure CalendarModel where
  name : Str
  searchResult : PyDateTime → PyDateTime → Except String (List CaldavRecord)
  eventsResult : Except String (List CaldavRecord)

/-- The per-calendar body of `CalDAVManager.list_events`: a calendar whose
query raises contributes nothing, and each record that fails to decode is
skipped without aborting the rest of that calendar's results. -/
def okDecodes (st en : PyDateTime) (c : CalendarModel) : List Event :=
  match c.searchResult st en with
  | .error _ => []
  | .ok recs => recs.filterMap (fun r => (fromCaldavEvent r).toOption)

/-- `CalDAVManager.list_events`: an empty or absent calendar-name filter (the
source tests the name's truthiness) targets every calendar; a non-empty name
must match some calendar's name or the call raises. -/
def listEvents (cals : List CalendarModel) (calendar_name : Option Str)
    (st en : PyDateTime) : Except String (List Event) :=
  let target :=
    match calendar_name with
    | some n => if n = [] then none else some n
    | none => none
  match target with
  | some n =>
    match cals.find? (fun c => c.name = n) with
    | none => .error "Calendar not found"
    | some c => .ok (okDecodes st en c)
  | none => .ok ((cals.map (okDecodes st en)).flatten)

/-- The per-record matching of `find_event_by_id`: the native identifier is
compared raw against the input and its decoded form and decoded against the
decoded input; then the location reference (when present and non-empty) is
compared the same three ways. -/
def matchesId (eid did : Str) (r : CaldavRecord) : Bool :=
  (match r.id with
   | some i => i = eid || i = did || unquote i = did
   | none => false) ||
  (match r.url with
   | some u => !u.isEmpty && (u = eid || u = did || unquote u = did)
   | none => false)

/-- `CalDAVManager.find_event_by_id`: percent-decode the input once, then scan
calendars in order, skipping a calendar whose enumeration raises, and return
the first record that matches; `none` is the not-found result, never an
error. -/
def findEventById (cals : List CalendarModel) (eventId : Str) :
    Option CaldavRecord :=
  let did := unquote eventId
  (cals.filterMap
    (fun c =>
      match c.eventsResult with
      | .error _ => none
      | .ok evs => evs.find? (matchesId eventId did))).head?

/-- The `FREQ` token `toIcalString` always emits. -/
def pairsFreq (r : RecurrenceRule) : List (Str × Str) :=
  [("FREQ".data, freqName r.frequency)]

/-- The `INTERVAL` token `toIcalString` emits for intervals above one. -/
def pairsInterval (r : RecurrenceRule) : List (Str × Str) :=
  if r.interval > 1 then [("INTERVAL".data, intToChars r.interval)] else []

/-- The `BYDAY` token `toIcalString` emits for a truthy weekday list. -/
def pairsByday (r : RecurrenceRule) : List (Str × Str) :=
  match r.days_of_week with
  | some (d :: ds) => [("BYDAY".data, joinSep ',' ((d :: ds).map weekdayToken))]
  | _ => []

/-- The end-condition token `toIcalString` emits: `UNTIL` for a set end date,
else `COUNT` for a truthy occurrence count. -/
def pairsEnd (r : RecurrenceRule) : List (Str × Str) :=
  match r.end_date with
  | some d => [("UNTIL".data, formatUntil d)]
  | none =>
    match r.occurrence_count with
    | some c => if c = 0 then [] else [("COUNT".data, intToChars c)]
    | none => []

/-- The key/value tokens `toIcalString` emits, in order: a characterization
of its output used to reason about re-decoding it. -/
def pairsOf (r : RecurrenceRule) : List (Str × Str) :=
  pairsFreq r ++ pairsInterval r ++ pairsByday r ++ pairsEnd r

/-- An update request that sets only the title. -/
def titleOnlyRequest (t : Str) : UpdateEventRequest :=
  { emptyRequest with title := some t }

/-- A record with two alarm blocks, one hour-unit trigger and one
compound-unit trigger. -/
def twoAlarmRecord : CaldavRecord :=
  ⟨some "ev-1".data, none,
    ⟨some ⟨some "Standup".data, none, none, none, none, none, none, [],
      none, none,
      [⟨some "DISPLAY".data, some "Standup".data, some "-PT1H".data⟩,
       ⟨some "DISPLAY".data, some "Standup".data, some "-PT1H30M".data⟩],
      []⟩⟩,
    some "Work".data⟩

/-- A structurally well-formed record whose `RRULE` text carries an interval
pydantic rejects. -/
def badRRuleRecord : CaldavRecord :=
  ⟨some "ev-2".data, none,
    ⟨some ⟨some "Sync".data, none, none, none, none, none, none, [],
      some "FREQ=DAILY;INTERVAL=0".data, none, [], []⟩⟩,
    some "Work".data⟩

/-- A minimal record with a `vevent` component and no fields at all. -/
def bareRecord : CaldavRecord :=
  ⟨some "ev-3".data, none,
    ⟨some ⟨none, none, none, none, none, none, none, [], none, none, [], []⟩⟩,
    some "Work".data⟩

/-- The record of the resolver scenario: its native identifier contains a
space, unencoded. -/
def spacedIdRecord : CaldavRecord :=
  ⟨some "A B".data, none, ⟨none⟩, some "Work".data⟩

/-- A record the resolver scenario must not return. -/
def otherIdRecord : CaldavRecord :=
  ⟨some "other-id".data, none, ⟨none⟩, some "Home".data⟩

/-- Two calendars for the resolver scenario; the target record sits in the
second one, behind a non-matching record. -/
def resolverCals : List CalendarModel :=
  [⟨"Home".data, fun _ _ => .ok [], .ok [otherIdRecord]⟩,
   ⟨"Work".data, fun _ _ => .ok [], .ok [otherIdRecord, spacedIdRecord]⟩]

/-! ## Lemmas about the building blocks -/

theorem errBind {α β : Type} (e : String) (f : α → Except String β) :
    (Except.error e >>= f) = Except.error e := rfl

theorem okBind {α β : Type} (a : α) (f : α → Except String β) :
    (Except.ok a >>= f) = f a := rfl

theorem bindOk {α β : Type} (x : Except String α) (f : α → Except String β)
    (b : β) : (x >>= f) = .ok b ↔ ∃ a, x = .ok a ∧ f a = .ok b := by
  cases x <;> simp [errBind, okBind]

theorem natToCharsAux_irrel (f1 : Nat) :
    ∀ f2 n, n < f1 → n < f2 → natToCharsAux f1 n = natToCharsAux f2 n := by
  induction f1 with
  | zero => intro f2 n h _; omega
  | succ f ih =>
    intro f2 n h1 h2
    cases f2 with
    | zero => omega
    | succ g =>
      simp only [natToCharsAux]
      by_cases h10 : n < 10
      · simp [h10]
      · have hd : n / 10 < n := Nat.div_lt_self (by omega) (by omega)
        simp only [if_neg h10]
        rw [ih g (n / 10) (by omega) (by omega)]

theorem natToChars_eq (n : Nat) :
    natToChars n =
      if n < 10 then [digitChar n]
      else natToChars (n / 10) ++ [digitChar (n % 10)] := by
  by_cases h : n < 10
  · simp [natToChars, natToCharsAux, h]
  · have hd : n / 10 < n := Nat.div_lt_self (by omega) (by omega)
    rw [if_neg h]
    show natToCharsAux (n + 1) n = natToCharsAux (n / 10 + 1) (n / 10) ++ [digitChar (n % 10)]
    rw [show natToCharsAux (n + 1) n =
      if n < 10 then [digitChar n] else natToCharsAux n (n / 10) ++ [digitChar (n % 10)] from rfl]
    rw [if_neg h, natToCharsAux_irrel n (n / 10 + 1) (n / 10) (by omega) (by omega)]

theorem digitChar_isDigit {n : Nat} (h : n < 10) :
    (digitChar n).isDigit = true := by
  interval_cases n <;> decide

theorem digitVal_digitChar {n : Nat} (h : n < 10) :
    digitVal (digitChar n) = n := by
  interval_cases n <;> decide

theorem natToChars_ne_nil (n : Nat) : natToChars n ≠ [] := by
  rw [natToChars_eq]
  by_cases h : n < 10 <;> simp [h]

theorem natToChars_all_digits (n : Nat) :
    ∀ c ∈ natToChars n, c.isDigit = true := by
  induction n using Nat.strong_induction_on with
  | _ n ih =>
    rw [natToChars_eq]
    by_cases h : n < 10
    · simpa [h] using digitChar_isDigit h
    · simp only [if_neg h, List.mem_append, List.mem_singleton]
      rintro c (hc | hc)
      · exact ih (n / 10) (Nat.div_lt_self (by omega) (by omega)) c hc
      · subst hc
        exact digitChar_isDigit (Nat.mod_lt _ (by omega))

theorem parseFold_from (l : Str) : ∀ a : Nat,
    l.foldl (fun x c => x * 10 + digitVal c) a =
      a * 10 ^ l.length + l.foldl (fun x c => x * 10 + digitVal c) 0 := by
  induction l with
  | nil => intro a; simp
  | cons c l ih =>
    intro a
    simp only [List.foldl_cons, List.length_cons]
    rw [ih (a * 10 + digitVal c), ih (0 * 10 + digitVal c)]
    ring

theorem parseNatDigits_natToChars (n : Nat) :
    parseNatDigits (natToChars n) = n := by
  induction n using Nat.strong_induction_on with
  | _ n ih =>
    rw [natToChars_eq]
    by_cases h : n < 10
    · simp [parseNatDigits, h, digitVal_digitChar h]
    · have hu := ih (n / 10) (Nat.div_lt_self (by omega) (by omega))
      simp only [if_neg h, parseNatDigits, List.foldl_append, List.foldl_cons,
        List.foldl_nil] at hu ⊢
      rw [hu, digitVal_digitChar (Nat.mod_lt _ (by omega))]
      omega

theorem natToChars_length_pow :
    ∀ k n, 10 ^ k ≤ n → n < 10 ^ (k + 1) → (natToChars n).length = k + 1 := by
  intro k
  induction k with
  | zero =>
    intro n _ h2
    have h2' : n < 10 := by simpa using h2
    rw [natToChars_eq, if_pos h2']
    rfl
  | succ k ih =>
    intro n h1 h2
    have hpow : 10 ^ 1 ≤ 10 ^ (k + 1) := Nat.pow_le_pow_right (by omega) (by omega)
    have h10 : ¬ n < 10 := by simp only [pow_one] at hpow; omega
    rw [natToChars_eq, if_neg h10]
    have hb1 : 10 ^ k ≤ n / 10 := by
      rw [Nat.le_div_iff_mul_le (by omega)]
      calc 10 ^ k * 10 = 10 ^ (k + 1) := by ring
        _ ≤ n := h1
    have hb2 : n / 10 < 10 ^ (k + 1) := by
      rw [Nat.div_lt_iff_lt_mul (by omega)]
      calc n < 10 ^ (k + 1 + 1) := h2
        _ = 10 ^ (k + 1) * 10 := by ring
    simp [ih (n / 10) hb1 hb2]

theorem splitOnChar_no_sep {c : Char} {p : Str} (h : c ∉ p) :
    splitOnChar c p = [p] := by
  induction p with
  | nil => rfl
  | cons x xs ih =>
    simp only [List.mem_cons, not_or] at h
    simp only [splitOnChar, if_neg (Ne.symm h.1)]
    rw [ih h.2]

theorem splitOnChar_sep_append {c : Char} {p : Str} (t : Str) (h : c ∉ p) :
    splitOnChar c (p ++ c :: t) = p :: splitOnChar c t := by
  induction p with
  | nil => simp [splitOnChar]
  | cons x xs ih =>
    simp only [List.mem_cons, not_or] at h
    simp only [List.cons_append, splitOnChar, List.append_eq, if_neg (Ne.symm h.1)]
    rw [ih h.2]

theorem splitOnChar_joinSep {c : Char} :
    ∀ parts : List Str, parts ≠ [] → (∀ p ∈ parts, c ∉ p) →
      splitOnChar c (joinSep c parts) = parts := by
  intro parts
  induction parts with
  | nil => intro h; exact absurd rfl h
  | cons p ps ih =>
    intro _ hmem
    cases ps with
    | nil => exact splitOnChar_no_sep (hmem p (by simp))
    | cons q rest =>
      have hjoin : joinSep c (p :: q :: rest) = p ++ c :: joinSep c (q :: rest) := rfl
      rw [hjoin, splitOnChar_sep_append _ (hmem p (by simp))]
      rw [ih (by simp) (fun x hx => hmem x (by simp [hx]))]

theorem splitFirst_key {c : Char} {k : Str} (v : Str) (h : c ∉ k) :
    splitFirst c (k ++ c :: v) = some (k, v) := by
  induction k with
  | nil => simp [splitFirst]
  | cons x xs ih =>
    simp only [List.mem_cons, not_or] at h
    simp only [List.cons_append, splitFirst, List.append_eq, if_neg (Ne.symm h.1)]
    rw [ih h.2]
    rfl

theorem takeWhile_all_sep {p : Char → Bool} {u : Str} {c : Char} (t : Str)
    (hu : ∀ x ∈ u, p x = true) (hc : p c = false) :
    (u ++ c :: t).takeWhile p = u := by
  induction u with
  | nil => simp [List.takeWhile, hc]
  | cons x xs ih =>
    have hx : p x = true := hu x (by simp)
    simp only [List.cons_append, List.takeWhile, List.append_eq, hx]
    rw [ih (fun y hy => hu y (by simp [hy]))]

theorem dropWhile_all_sep {p : Char → Bool} {u : Str} {c : Char} (t : Str)
    (hu : ∀ x ∈ u, p x = true) (hc : p c = false) :
    (u ++ c :: t).dropWhile p = c :: t := by
  induction u with
  | nil => simp [List.dropWhile, hc]
  | cons x xs ih =>
    have hx : p x = true := hu x (by simp)
    simp only [List.cons_append, List.dropWhile, List.append_eq, hx]
    exact ih (fun y hy => hu y (by simp [hy]))

theorem parseNatOpt_natToChars (n : Nat) :
    parseNatOpt (natToChars n) = some n := by
  have hne : natToChars n ≠ [] := natToChars_ne_nil n
  have hdig : (natToChars n).all Char.isDigit = true :=
    List.all_eq_true.mpr (fun c hc => natToChars_all_digits n c hc)
  simp only [parseNatOpt, List.isEmpty_eq_true]
  rw [if_neg hne, if_pos hdig, parseNatDigits_natToChars]

theorem intParse_natToChars (n : Nat) :
    intParse (natToChars n) = some (n : Int) := by
  rcases hc : natToChars n with _ | ⟨c, rest⟩
  · exact absurd hc (natToChars_ne_nil n)
  · have hd : c.isDigit = true := natToChars_all_digits n c (by rw [hc]; simp)
    have h1 : ¬ c = '-' := by rintro rfl; simp at hd
    have h2 : ¬ c = '+' := by rintro rfl; simp at hd
    simp only [intParse, if_neg h1, if_neg h2]
    rw [← hc, parseNatOpt_natToChars]
    rfl

theorem intParse_intToChars (i : Int) :
    intParse (intToChars i) = some i := by
  by_cases h : i < 0
  · rw [intToChars, if_pos h]
    rw [show intParse ('-' :: natToChars i.natAbs) =
      (parseNatOpt (natToChars i.natAbs)).map (fun n => -(n : Int)) from rfl]
    rw [parseNatOpt_natToChars]
    show some (-(i.natAbs : Int)) = some i
    congr 1
    omega
  · rw [intToChars, if_neg h, intParse_natToChars]
    congr 1
    omega

theorem readDigits_exact {ds : Str} {k : Nat} (rest : Str) (hlen : ds.length = k)
    (hdig : ds.all Char.isDigit = true) :
    readDigits k (ds ++ rest) = some (parseNatDigits ds, rest) := by
  subst hlen
  unfold readDigits
  simp only [List.take_left, List.drop_left]
  rw [if_pos ⟨trivial, hdig⟩]

theorem daysInMonth_le (y m : Nat) : daysInMonth y m ≤ 31 := by
  unfold daysInMonth
  split
  · split <;> omega
  · split <;> omega

theorem pad2_all_digits (n : Nat) : (pad2 n).all Char.isDigit = true := by
  unfold pad2
  by_cases h : n < 10
  · rw [if_pos h]
    simp only [List.all_cons, Bool.and_eq_true]
    exact ⟨by decide, List.all_eq_true.mpr (fun c hc => natToChars_all_digits n c hc)⟩
  · rw [if_neg h]
    exact List.all_eq_true.mpr (fun c hc => natToChars_all_digits n c hc)

theorem pad2_length {n : Nat} (h : n < 100) : (pad2 n).length = 2 := by
  unfold pad2
  by_cases h10 : n < 10
  · rw [if_pos h10, natToChars_eq, if_pos h10]
    rfl
  · rw [if_neg h10]
    exact natToChars_length_pow 1 n (by omega) (by norm_num; omega)

theorem parseNatDigits_pad2 (n : Nat) : parseNatDigits (pad2 n) = n := by
  unfold pad2
  by_cases h10 : n < 10
  · rw [if_pos h10]
    simp only [parseNatDigits, List.foldl_cons]
    have : (0 : Nat) * 10 + digitVal '0' = 0 := by decide
    rw [this]
    exact parseNatDigits_natToChars n
  · rw [if_neg h10]
    exact parseNatDigits_natToChars n

theorem readDigits_pad2 {n : Nat} (h : n < 100) (rest : Str) :
    readDigits 2 (pad2 n ++ rest) = some (n, rest) := by
  rw [readDigits_exact rest (pad2_length h) (pad2_all_digits n), parseNatDigits_pad2]

theorem readDigits_year {y : Nat} (h1 : 1000 ≤ y) (h2 : y ≤ 9999) (rest : Str) :
    readDigits 4 (natToChars y ++ rest) = some (y, rest) := by
  have hlen : (natToChars y).length = 4 :=
    natToChars_length_pow 3 y (by norm_num; omega) (by norm_num; omega)
  have hdig : (natToChars y).all Char.isDigit = true :=
    List.all_eq_true.mpr (fun c hc => natToChars_all_digits y c hc)
  rw [readDigits_exact rest hlen hdig, parseNatDigits_natToChars]

theorem mem_T_formatUntil (d : PyDateTime) : 'T' ∈ formatUntil d := by
  simp [formatUntil]

theorem parseUntil_format {d : PyDateTime} (hv : d.valid = true) (hu : d.usec = 0)
    (hy : 1000 ≤ d.year) : parseUntilDateTime (formatUntil d) = some d := by
  obtain ⟨y, mo, dy, h, mi, s, us⟩ := d
  have hb := hv
  simp only [PyDateTime.valid, Bool.and_eq_true, decide_eq_true_eq] at hb
  simp only at hu hy
  subst hu
  have hdm : daysInMonth y mo ≤ 31 := daysInMonth_le y mo
  have hshape : formatUntil ⟨y, mo, dy, h, mi, s, 0⟩ =
      natToChars y ++ (pad2 mo ++ (pad2 dy ++
        ('T' :: (pad2 h ++ (pad2 mi ++ (pad2 s ++ ['Z'])))))) := by
    simp [formatUntil]
  rw [hshape]
  simp only [parseUntilDateTime,
    readDigits_year hy (by omega),
    readDigits_pad2 (show mo < 100 by omega),
    readDigits_pad2 (show dy < 100 by omega),
    readDigits_pad2 (show h < 100 by omega),
    readDigits_pad2 (show mi < 100 by omega),
    readDigits_pad2 (show s < 100 by omega)]
  rw [if_pos hv]

theorem weekdayOfToken_weekdayToken (w : Weekday) :
    weekdayOfToken (weekdayToken w) = some w := by
  cases w <;> decide

theorem filterMap_weekdayTokens (ds : List Weekday) :
    (ds.map weekdayToken).filterMap weekdayOfToken = ds := by
  induction ds with
  | nil => rfl
  | cons d ds ih =>
    simp only [List.map_cons, List.filterMap_cons, weekdayOfToken_weekdayToken, ih]

theorem freqOfName_freqName (f : Frequency) : freqOfName (freqName f) = f := by
  cases f <;> decide

theorem pad2_mem {n : Nat} {c : Char} (hc : c ∈ pad2 n) : c.isDigit = true :=
  List.all_eq_true.mp (pad2_all_digits n) c hc

theorem freqName_no_semi (f : Frequency) : ';' ∉ freqName f := by
  cases f <;> decide

theorem intToChars_chars {i : Int} {c : Char} (hc : c ∈ intToChars i) :
    c = '-' ∨ c.isDigit = true := by
  unfold intToChars at hc
  by_cases h : i < 0
  · rw [if_pos h] at hc
    rcases List.mem_cons.mp hc with h1 | h2
    · exact Or.inl h1
    · exact Or.inr (natToChars_all_digits _ c h2)
  · rw [if_neg h] at hc
    exact Or.inr (natToChars_all_digits _ c hc)

theorem semi_notin_intToChars (i : Int) : ';' ∉ intToChars i := by
  intro hm
  rcases intToChars_chars hm with h | h
  · exact absurd h (by decide)
  · exact absurd h (by decide)

theorem mem_joinSep {sep c : Char} :
    ∀ parts : List Str, c ∈ joinSep sep parts →
      c = sep ∨ ∃ p ∈ parts, c ∈ p := by
  intro parts
  induction parts with
  | nil => intro h; exact absurd h (by simp [joinSep])
  | cons p ps ih =>
    cases ps with
    | nil =>
      intro h
      exact Or.inr ⟨p, by simp, h⟩
    | cons q rest =>
      intro h
      rw [show joinSep sep (p :: q :: rest) = p ++ sep :: joinSep sep (q :: rest)
        from rfl] at h
      rcases List.mem_append.mp h with h | h
      · exact Or.inr ⟨p, by simp, h⟩
      · rcases List.mem_cons.mp h with h | h
        · exact Or.inl h
        · rcases ih h with h | ⟨x, hx, hcx⟩
          · exact Or.inl h
          · exact Or.inr ⟨x, by simp [hx], hcx⟩

theorem semi_notin_bydayVal (ds : List Weekday) :
    ';' ∉ joinSep ',' (ds.map weekdayToken) := by
  intro hm
  rcases mem_joinSep _ hm with h | ⟨p, hp, hcp⟩
  · exact absurd h (by decide)
  · rcases List.mem_map.mp hp with ⟨w, _, rfl⟩
    revert hcp
    cases w <;> decide

theorem formatUntil_chars {d : PyDateTime} {c : Char}
    (hc : c ∈ formatUntil d) : c.isDigit = true ∨ c = 'T' ∨ c = 'Z' := by
  unfold formatUntil at hc
  rcases List.mem_append.mp hc with h | h
  · rcases List.mem_append.mp h with h | h
    · rcases List.mem_append.mp h with h | h
      · exact Or.inl (natToChars_all_digits _ _ h)
      · exact Or.inl (pad2_mem h)
    · exact Or.inl (pad2_mem h)
  · rcases List.mem_cons.mp h with h | h
    · exact Or.inr (Or.inl h)
    · rcases List.mem_append.mp h with h | h
      · rcases List.mem_append.mp h with h | h
        · rcases List.mem_append.mp h with h | h
          · exact Or.inl (pad2_mem h)
          · exact Or.inl (pad2_mem h)
        · exact Or.inl (pad2_mem h)
      · simp only [List.mem_singleton] at h
        exact Or.inr (Or.inr h)

theorem semi_notin_formatUntil (d : PyDateTime) : ';' ∉ formatUntil d := by
  intro hm
  rcases formatUntil_chars hm with h | h | h
  · exact absurd h (by decide)
  · exact absurd h (by decide)
  · exact absurd h (by decide)

theorem semi_notin_kv {k v : Str} (hk : ';' ∉ k) (hv : ';' ∉ v) :
    ';' ∉ (k ++ '=' :: v) := by
  intro hm
  rcases List.mem_append.mp hm with h | h
  · exact hk h
  · rcases List.mem_cons.mp h with h | h
    · exact absurd h (by decide)
    · exact hv h

theorem pairsOf_wf (r : RecurrenceRule) :
    ∀ kv ∈ pairsOf r, (';' ∉ kv.1 ∧ '=' ∉ kv.1) ∧ ';' ∉ kv.2 := by
  intro kv hkv
  simp only [pairsOf, List.mem_append] at hkv
  rcases hkv with ((h | h) | h) | h
  · simp only [pairsFreq, List.mem_singleton] at h
    subst h
    exact ⟨⟨(by decide : ';' ∉ "FREQ".data), (by decide : '=' ∉ "FREQ".data)⟩,
      freqName_no_semi r.frequency⟩
  · unfold pairsInterval at h
    split at h
    · simp only [List.mem_singleton] at h
      subst h
      exact ⟨⟨(by decide : ';' ∉ "INTERVAL".data),
        (by decide : '=' ∉ "INTERVAL".data)⟩, semi_notin_intToChars r.interval⟩
    · exact absurd h (by simp)
  · unfold pairsByday at h
    split at h
    · rename_i d ds heq
      simp only [List.mem_singleton] at h
      subst h
      exact ⟨⟨(by decide : ';' ∉ "BYDAY".data),
        (by decide : '=' ∉ "BYDAY".data)⟩, semi_notin_bydayVal (d :: ds)⟩
    · exact absurd h (by simp)
  · unfold pairsEnd at h
    split at h
    · rename_i d heq
      simp only [List.mem_singleton] at h
      subst h
      exact ⟨⟨(by decide : ';' ∉ "UNTIL".data),
        (by decide : '=' ∉ "UNTIL".data)⟩, semi_notin_formatUntil d⟩
    · split at h
      · rename_i n heq
        split at h
        · exact absurd h (by simp)
        · simp only [List.mem_singleton] at h
          subst h
          exact ⟨⟨(by decide : ';' ∉ "COUNT".data),
            (by decide : '=' ∉ "COUNT".data)⟩, semi_notin_intToChars n⟩
      · exact absurd h (by simp)

theorem toIcal_parts (r : RecurrenceRule) :
    toIcalString r =
      joinSep ';' ((pairsOf r).map (fun kv => kv.1 ++ '=' :: kv.2)) := by
  unfold toIcalString pairsOf
  congr 1
  rw [List.map_append, List.map_append, List.map_append]
  congr 1
  · congr 1
    · congr 1
      unfold pairsInterval
      by_cases hi : r.interval > 1 <;> simp [hi]
    · unfold pairsByday
      rcases r.days_of_week with _ | ⟨_ | ⟨d, ds⟩⟩ <;> simp
  · unfold pairsEnd
    rcases r.end_date with _ | d
    · rcases r.occurrence_count with _ | n
      · rfl
      · by_cases hz : n = 0 <;> simp [hz]
    · simp

theorem filterMap_glue (l : List (Str × Str))
    (h : ∀ kv ∈ l, '=' ∉ kv.1) :
    (l.map (fun kv => kv.1 ++ '=' :: kv.2)).filterMap (splitFirst '=') = l := by
  induction l with
  | nil => rfl
  | cons kv l ih =>
    simp only [List.map_cons, List.filterMap_cons,
      splitFirst_key kv.2 (h kv (by simp))]
    rw [ih (fun x hx => h x (by simp [hx]))]

theorem parsePairs_toIcal (r : RecurrenceRule) :
    parsePairs (toIcalString r) = pairsOf r := by
  rw [parsePairs, toIcal_parts]
  rw [splitOnChar_joinSep _
    (by simp [pairsOf, pairsFreq])
    (by
      intro p hp
      rcases List.mem_map.mp hp with ⟨kv, hkv, rfl⟩
      exact semi_notin_kv ((pairsOf_wf r kv hkv).1.1) ((pairsOf_wf r kv hkv).2))]
  exact filterMap_glue _ (fun kv hkv => (pairsOf_wf r kv hkv).1.2)

theorem dictGet_append (l1 l2 : List (Str × Str)) (k : Str) :
    dictGet (l1 ++ l2) k =
      match dictGet l2 k with
      | some v => some v
      | none => dictGet l1 k := by
  induction l1 with
  | nil =>
    simp only [List.nil_append]
    cases dictGet l2 k <;> rfl
  | cons p l1 ih =>
    simp only [List.cons_append, dictGet, List.append_eq, ih]
    cases dictGet l2 k <;> cases dictGet l1 k <;> rfl

theorem dictGet_pairsFreq_self (r : RecurrenceRule) :
    dictGet (pairsFreq r) "FREQ".data = some (freqName r.frequency) := by
  show (match (none : Option Str) with
    | some v => some v
    | none => if ("FREQ".data : Str) = "FREQ".data
      then some (freqName r.frequency) else none) = _
  rw [if_pos rfl]

theorem dictGet_pairsFreq_ne (r : RecurrenceRule) {k : Str}
    (h : ¬ ("FREQ".data : Str) = k) : dictGet (pairsFreq r) k = none := by
  show (match (none : Option Str) with
    | some v => some v
    | none => if ("FREQ".data : Str) = k
      then some (freqName r.frequency) else none) = _
  rw [if_neg h]

theorem dictGet_pairsInterval_self (r : RecurrenceRule) :
    dictGet (pairsInterval r) "INTERVAL".data =
      if r.interval > 1 then some (intToChars r.interval) else none := by
  unfold pairsInterval
  by_cases hi : r.interval > 1
  · rw [if_pos hi, if_pos hi]
    show (match (none : Option Str) with
      | some v => some v
      | none => if ("INTERVAL".data : Str) = "INTERVAL".data
        then some (intToChars r.interval) else none) = _
    rw [if_pos rfl]
  · rw [if_neg hi, if_neg hi]
    rfl

theorem dictGet_pairsInterval_ne (r : RecurrenceRule) {k : Str}
    (h : ¬ ("INTERVAL".data : Str) = k) : dictGet (pairsInterval r) k = none := by
  unfold pairsInterval
  by_cases hi : r.interval > 1
  · rw [if_pos hi]
    show (match (none : Option Str) with
      | some v => some v
      | none => if ("INTERVAL".data : Str) = k
        then some (intToChars r.interval) else none) = _
    rw [if_neg h]
  · rw [if_neg hi]
    rfl

theorem dictGet_pairsByday_self (r : RecurrenceRule) :
    dictGet (pairsByday r) "BYDAY".data =
      match r.days_of_week with
      | some (d :: ds) => some (joinSep ',' ((d :: ds).map weekdayToken))
      | _ => none := by
  unfold pairsByday
  rcases r.days_of_week with _ | ⟨_ | ⟨d, ds⟩⟩
  · rfl
  · rfl
  · show (match (none : Option Str) with
      | some v => some v
      | none => if ("BYDAY".data : Str) = "BYDAY".data
        then some (joinSep ',' ((d :: ds).map weekdayToken)) else none) = _
    rw [if_pos rfl]

theorem dictGet_pairsByday_ne (r : RecurrenceRule) {k : Str}
    (h : ¬ ("BYDAY".data : Str) = k) : dictGet (pairsByday r) k = none := by
  unfold pairsByday
  rcases r.days_of_week with _ | ⟨_ | ⟨d, ds⟩⟩
  · rfl
  · rfl
  · show (match (none : Option Str) with
      | some v => some v
      | none => if ("BYDAY".data : Str) = k
        then some (joinSep ',' ((d :: ds).map weekdayToken)) else none) = _
    rw [if_neg h]

theorem dictGet_pairsEnd_until (r : RecurrenceRule) :
    dictGet (pairsEnd r) "UNTIL".data = (r.end_date).map formatUntil := by
  unfold pairsEnd
  rcases r.end_date with _ | d
  · rcases r.occurrence_count with _ | n
    · rfl
    · by_cases hz : n = 0
      · subst hz
        rfl
      · show dictGet (if n = 0 then [] else [("COUNT".data, intToChars n)])
          "UNTIL".data = none
        rw [if_neg hz]
        rfl
  · rfl

theorem dictGet_pairsEnd_count (r : RecurrenceRule) (he : r.end_date = none) :
    dictGet (pairsEnd r) "COUNT".data =
      match r.occurrence_count with
      | some c => if c = 0 then none else some (intToChars c)
      | none => none := by
  unfold pairsEnd
  rw [he]
  rcases r.occurrence_count with _ | n
  · rfl
  · by_cases hz : n = 0
    · subst hz
      rfl
    · show dictGet (if n = 0 then [] else [("COUNT".data, intToChars n)])
        "COUNT".data = if n = 0 then none else some (intToChars n)
      rw [if_neg hz, if_neg hz]
      rfl

theorem dictGet_pairsEnd_ne (r : RecurrenceRule) {k : Str}
    (h1 : ¬ ("UNTIL".data : Str) = k) (h2 : ¬ ("COUNT".data : Str) = k) :
    dictGet (pairsEnd r) k = none := by
  unfold pairsEnd
  rcases r.end_date with _ | d
  · rcases r.occurrence_count with _ | n
    · rfl
    · by_cases hz : n = 0
      · subst hz
        rfl
      · show dictGet (if n = 0 then [] else [("COUNT".data, intToChars n)]) k = none
        rw [if_neg hz]
        show (match (none : Option Str) with
          | some v => some v
          | none => if ("COUNT".data : Str) = k
            then some (intToChars n) else none) = none
        rw [if_neg h2]
  · show (match (none : Option Str) with
      | some v => some v
      | none => if ("UNTIL".data : Str) = k
        then some (formatUntil d) else none) = none
    rw [if_neg h1]

theorem dictGet_pairsOf_freq (r : RecurrenceRule) :
    dictGet (pairsOf r) "FREQ".data = some (freqName r.frequency) := by
  unfold pairsOf
  rw [dictGet_append, dictGet_pairsEnd_ne r (by decide) (by decide),
    dictGet_append, dictGet_pairsByday_ne r (by decide),
    dictGet_append, dictGet_pairsInterval_ne r (by decide),
    dictGet_pairsFreq_self]

theorem dictGet_pairsOf_interval (r : RecurrenceRule) :
    dictGet (pairsOf r) "INTERVAL".data =
      if r.interval > 1 then some (intToChars r.interval) else none := by
  unfold pairsOf
  rw [dictGet_append, dictGet_pairsEnd_ne r (by decide) (by decide),
    dictGet_append, dictGet_pairsByday_ne r (by decide),
    dictGet_append, dictGet_pairsInterval_self]
  by_cases hi : r.interval > 1
  · rw [if_pos hi]
  · rw [if_neg hi, dictGet_pairsFreq_ne r (by decide)]

theorem dictGet_pairsOf_byday (r : RecurrenceRule) :
    dictGet (pairsOf r) "BYDAY".data =
      match r.days_of_week with
      | some (d :: ds) => some (joinSep ',' ((d :: ds).map weekdayToken))
      | _ => none := by
  unfold pairsOf
  rw [dictGet_append, dictGet_pairsEnd_ne r (by decide) (by decide),
    dictGet_append, dictGet_pairsByday_self]
  rcases r.days_of_week with _ | ⟨_ | ⟨d, ds⟩⟩
  · rw [dictGet_append, dictGet_pairsInterval_ne r (by decide),
      dictGet_pairsFreq_ne r (by decide)]
  · rw [dictGet_append, dictGet_pairsInterval_ne r (by decide),
      dictGet_pairsFreq_ne r (by decide)]
  · rfl

theorem dictGet_pairsOf_until (r : RecurrenceRule) :
    dictGet (pairsOf r) "UNTIL".data = (r.end_date).map formatUntil := by
  unfold pairsOf
  rw [dictGet_append, dictGet_pairsEnd_until]
  rcases r.end_date with _ | d
  · rw [dictGet_append, dictGet_pairsByday_ne r (by decide),
      dictGet_append, dictGet_pairsInterval_ne r (by decide),
      dictGet_pairsFreq_ne r (by decide)]
    rfl
  · rfl

theorem dictGet_pairsOf_count (r : RecurrenceRule) (he : r.end_date = none) :
    dictGet (pairsOf r) "COUNT".data =
      match r.occurrence_count with
      | some c => if c = 0 then none else some (intToChars c)
      | none => none := by
  unfold pairsOf
  rw [dictGet_append, dictGet_pairsEnd_count r he]
  rcases r.occurrence_count with _ | n
  · show dictGet (pairsFreq r ++ pairsInterval r ++ pairsByday r) "COUNT".data = none
    rw [dictGet_append, dictGet_pairsByday_ne r (by decide),
      dictGet_append, dictGet_pairsInterval_ne r (by decide),
      dictGet_pairsFreq_ne r (by decide)]
  · by_cases hz : n = 0
    · subst hz
      show dictGet (pairsFreq r ++ pairsInterval r ++ pairsByday r) "COUNT".data = none
      rw [dictGet_append, dictGet_pairsByday_ne r (by decide),
        dictGet_append, dictGet_pairsInterval_ne r (by decide),
        dictGet_pairsFreq_ne r (by decide)]
    · show (match (if n = 0 then none else some (intToChars n) : Option Str) with
        | some v => some v
        | none =>
          dictGet (pairsFreq r ++ pairsInterval r ++ pairsByday r) "COUNT".data) =
        if n = 0 then none else some (intToChars n)
      rw [if_neg hz]

theorem mkRecurrenceRule_ok {f : Frequency} {i : Int} {ed : Option PyDateTime}
    {oc : Option Int} {dw : Option (List Weekday)} {r : RecurrenceRule}
    (h : mkRecurrenceRule f i ed oc dw = .ok r) : r = ⟨f, i, ed, oc, dw⟩ := by
  unfold mkRecurrenceRule at h
  split at h
  · cases h
  · split at h
    · cases h
    · cases h
      rfl

theorem mkRecurrenceRule_succeeds (f : Frequency) (i : Int)
    (ed : Option PyDateTime) (oc : Option Int) (dw : Option (List Weekday))
    (h1 : ¬ i < 1) (h2 : ¬ (ed.isSome ∧ oc.isSome)) :
    mkRecurrenceRule f i ed oc dw = .ok ⟨f, i, ed, oc, dw⟩ := by
  unfold mkRecurrenceRule
  rw [if_neg h1, if_neg h2]

theorem splitComma_tokens (d : Weekday) (ds : List Weekday) :
    splitOnChar ',' (joinSep ',' ((d :: ds).map weekdayToken)) =
      (d :: ds).map weekdayToken :=
  splitOnChar_joinSep _ (by simp)
    (by
      intro p hp
      rcases List.mem_map.mp hp with ⟨w, _, rfl⟩
      cases w <;> decide)

theorem bydayOf_pairsOf (r : RecurrenceRule) (hdays : r.days_of_week ≠ some []) :
    bydayOf (pairsOf r) = r.days_of_week := by
  unfold bydayOf
  rw [dictGet_pairsOf_byday]
  rcases hd : r.days_of_week with _ | ⟨_ | ⟨d, ds⟩⟩
  · rfl
  · exact absurd hd hdays
  · show (if (splitOnChar ','
        (joinSep ',' ((d :: ds).map weekdayToken))).filterMap weekdayOfToken = []
      then none
      else some ((splitOnChar ','
        (joinSep ',' ((d :: ds).map weekdayToken))).filterMap weekdayOfToken)) =
      some (d :: ds)
    rw [splitComma_tokens, filterMap_weekdayTokens, if_neg (by simp)]

theorem intParse_one : intParse "1".data = some 1 := by decide

/-- Claim C3 (amended): decoding an encoded rule restores it, for every rule
with exactly one of end date and occurrence count set, whose weekday list is
not the (set but) empty list, whose occurrence count is non-zero, and whose
end date (when set) is a valid calendar timestamp with whole-second precision
and a four-digit year. -/
theorem recurrence_roundtrip (r : RecurrenceRule)
    (hint : 1 ≤ r.interval)
    (hone : (r.end_date.isSome ∧ r.occurrence_count = none) ∨
            (r.end_date = none ∧ r.occurrence_count.isSome))
    (hcount : match r.occurrence_count with
      | some c => c ≠ 0
      | none => True)
    (hdays : r.days_of_week ≠ some [])
    (hdate : match r.end_date with
      | some d => d.valid = true ∧ d.usec = 0 ∧ 1000 ≤ d.year
      | none => True) :
    fromIcalString (toIcalString r) = .ok r := by
  unfold fromIcalString
  rw [parsePairs_toIcal r]
  rcases hone with ⟨hed, hoc⟩ | ⟨hed, hoc⟩
  · obtain ⟨dt, hdt⟩ := Option.isSome_iff_exists.mp hed
    rw [hdt] at hdate
    obtain ⟨hv, hu, hy⟩ := hdate
    by_cases hi : r.interval > 1
    · rw [dictGet_pairsOf_interval, if_pos hi, Option.getD_some,
        intParse_intToChars, dictGet_pairsOf_until, hdt, Option.map_some',
        dictGet_pairsOf_freq, Option.getD_some, freqOfName_freqName,
        bydayOf_pairsOf r hdays]
      simp only [mem_T_formatUntil, if_true, parseUntil_format hv hu hy]
      rw [mkRecurrenceRule_succeeds r.frequency r.interval (some dt) none
        r.days_of_week (by omega) (by simp)]
      rw [← hdt, ← hoc]
    · have hi1 : r.interval = 1 := by omega
      rw [dictGet_pairsOf_interval, if_neg hi, Option.getD_none,
        intParse_one, dictGet_pairsOf_until, hdt, Option.map_some',
        dictGet_pairsOf_freq, Option.getD_some, freqOfName_freqName,
        bydayOf_pairsOf r hdays]
      simp only [mem_T_formatUntil, if_true, parseUntil_format hv hu hy]
      rw [mkRecurrenceRule_succeeds r.frequency 1 (some dt) none
        r.days_of_week (by omega) (by simp)]
      rw [← hdt, ← hoc, ← hi1]
  · obtain ⟨c, hc⟩ := Option.isSome_iff_exists.mp hoc
    rw [hc] at hcount
    have hcz : c ≠ 0 := hcount
    by_cases hi : r.interval > 1
    · rw [dictGet_pairsOf_interval, if_pos hi, Option.getD_some,
        intParse_intToChars, dictGet_pairsOf_until, hed, Option.map_none',
        dictGet_pairsOf_count r hed, hc,
        dictGet_pairsOf_freq, Option.getD_some, freqOfName_freqName,
        bydayOf_pairsOf r hdays]
      simp only [if_neg hcz, intParse_intToChars]
      rw [mkRecurrenceRule_succeeds r.frequency r.interval none (some c)
        r.days_of_week (by omega) (by simp)]
      rw [← hed, ← hc]
    · have hi1 : r.interval = 1 := by omega
      rw [dictGet_pairsOf_interval, if_neg hi, Option.getD_none,
        intParse_one, dictGet_pairsOf_until, hed, Option.map_none',
        dictGet_pairsOf_count r hed, hc,
        dictGet_pairsOf_freq, Option.getD_some, freqOfName_freqName,
        bydayOf_pairsOf r hdays]
      simp only [if_neg hcz, intParse_intToChars]
      rw [mkRecurrenceRule_succeeds r.frequency 1 none (some c)
        r.days_of_week (by omega) (by simp)]
      rw [← hed, ← hc, ← hi1]

/-! ## Claim theorems -/

/-- Claim C1, counterexample: the claim states that decoding the
compound-unit trigger "-PT1H30M" yields no value; in fact the decoder's
`re.match` anchors only at the start of the string, so the leading "-PT1H"
matches and the trigger decodes to 60 minutes. -/
theorem C1_counterexample : decodeTrigger "-PT1H30M".data = some 60 := by decide

/-- Claim C1 (amended): decoding "-PT1H" yields 60 minutes (hour-unit
triggers are converted by multiplying by 60); decoding the compound-unit
trigger "-PT1H30M" also yields 60 minutes — the prefix "-PT1H" matches and
the trailing "30M" is ignored — so the alarm is included in the resulting
set with value 60 rather than excluded, and no error is raised. -/
theorem C1_amended :
    decodeTrigger "-PT1H".data = some 60 ∧
    decodeTrigger "-PT1H30M".data = some 60 ∧
    (fromCaldavEvent twoAlarmRecord).map Event.alarms_minutes_offsets =
      .ok (some [60, 60]) :=
  ⟨by decide, by decide, by decide⟩

/-- Claim C2: for every non-negative minute offset, encoding it as a trigger
and decoding that trigger returns exactly the offset; the (spec-modelled)
encoder always emits whole-minute units, so the decode succeeds on every
self-produced trigger, including arbitrarily large offsets. -/
theorem C2_alarm_roundtrip (m : Nat) :
    decodeTrigger (encodeTrigger m) = some m := by
  have hdig := natToChars_all_digits m
  have htake : (natToChars m ++ 'M' :: []).takeWhile Char.isDigit = natToChars m :=
    takeWhile_all_sep [] hdig (by decide)
  have hdrop : (natToChars m ++ 'M' :: []).dropWhile Char.isDigit = 'M' :: [] :=
    dropWhile_all_sep [] hdig (by decide)
  show (if (natToChars m ++ 'M' :: []).takeWhile Char.isDigit = [] then none
    else
      match (natToChars m ++ 'M' :: []).dropWhile Char.isDigit with
      | 'H' :: _ =>
        some (parseNatDigits ((natToChars m ++ 'M' :: []).takeWhile Char.isDigit) * 60)
      | 'M' :: _ =>
        some (parseNatDigits ((natToChars m ++ 'M' :: []).takeWhile Char.isDigit))
      | _ => none) = some m
  rw [htake, hdrop, if_neg (natToChars_ne_nil m), parseNatDigits_natToChars]
  rfl

/-- Claim C3, counterexample: the claim states that every rule with exactly
one end condition set round-trips; these four constructible rules do not —
an empty (but set) weekday list and a zero occurrence count are dropped by
the encoder's truthiness tests, a sub-second end date loses its microseconds,
and a year-50 end date fails to re-parse and is silently dropped. -/
theorem C3_counterexample :
    fromIcalString (toIcalString ⟨.daily, 1, none, some 3, some []⟩) ≠
      .ok ⟨.daily, 1, none, some 3, some []⟩ ∧
    fromIcalString (toIcalString ⟨.daily, 1, none, some 0, none⟩) ≠
      .ok ⟨.daily, 1, none, some 0, none⟩ ∧
    fromIcalString
        (toIcalString ⟨.daily, 1, some ⟨2024, 1, 1, 0, 0, 0, 500000⟩, none, none⟩) ≠
      .ok ⟨.daily, 1, some ⟨2024, 1, 1, 0, 0, 0, 500000⟩, none, none⟩ ∧
    fromIcalString (toIcalString ⟨.daily, 1, some ⟨50, 1, 1, 0, 0, 0, 0⟩, none, none⟩) ≠
      .ok ⟨.daily, 1, some ⟨50, 1, 1, 0, 0, 0, 0⟩, none, none⟩ :=
  ⟨by decide, by decide, by decide, by decide⟩

/-- Claim C3, witness: a concrete rule satisfying the amended hypotheses
round-trips through the codec. -/
theorem C3_witness :
    fromIcalString (toIcalString
      ⟨.weekly, 2, some ⟨2025, 6, 30, 12, 0, 0, 0⟩, none, some [.monday, .friday]⟩) =
      .ok ⟨.weekly, 2, some ⟨2025, 6, 30, 12, 0, 0, 0⟩, none, some [.monday, .friday]⟩ :=
  recurrence_roundtrip _ (by decide) (Or.inl ⟨by decide, rfl⟩) trivial
    (by decide) ⟨by decide, rfl, by decide⟩

/-- Claim C4: constructing a rule with both `end_date` and
`occurrence_count` set fails with an error at construction, before any codec
runs; with at most one of them set (and a valid interval) construction
succeeds. -/
theorem C4_construction_xor :
    (∀ (f : Frequency) (i : Int) (d : PyDateTime) (c : Int)
        (dw : Option (List Weekday)),
      ∃ e, mkRecurrenceRule f i (some d) (some c) dw = .error e) ∧
    (∀ (f : Frequency) (i : Int) (ed : Option PyDateTime) (oc : Option Int)
        (dw : Option (List Weekday)), 1 ≤ i → ¬ (ed.isSome ∧ oc.isSome) →
      mkRecurrenceRule f i ed oc dw = .ok ⟨f, i, ed, oc, dw⟩) := by
  constructor
  · intro f i d c dw
    unfold mkRecurrenceRule
    by_cases hi : i < 1
    · exact ⟨_, by rw [if_pos hi]⟩
    · exact ⟨_, by rw [if_neg hi, if_pos ⟨rfl, rfl⟩]⟩
  · intro f i ed oc dw h1 h2
    exact mkRecurrenceRule_succeeds f i ed oc dw (by omega) h2

/-- Claim C4, witness: the concrete scenario — both end conditions set fails,
one end condition set succeeds. -/
theorem C4_witness :
    (∃ e, mkRecurrenceRule .daily 1 (some ⟨2025, 1, 1, 0, 0, 0, 0⟩) (some 3) none =
      .error e) ∧
    mkRecurrenceRule .daily 1 (some ⟨2025, 1, 1, 0, 0, 0, 0⟩) none none =
      .ok ⟨.daily, 1, some ⟨2025, 1, 1, 0, 0, 0, 0⟩, none, none⟩ :=
  ⟨C4_construction_xor.1 .daily 1 ⟨2025, 1, 1, 0, 0, 0, 0⟩ 3 none,
   C4_construction_xor.2 .daily 1 (some ⟨2025, 1, 1, 0, 0, 0, 0⟩) none none
     (by decide) (by decide)⟩

/-- Claim C5: decoding "FOO=BAR;FREQ=WEEKLY" yields a Weekly rule and raises
no error for the unknown token; and every text lacking a FREQ token that
decodes successfully decodes to a rule with frequency Daily. -/
theorem C5_lenient_decode :
    fromIcalString "FOO=BAR;FREQ=WEEKLY".data = .ok ⟨.weekly, 1, none, none, none⟩ ∧
    (∀ (s : Str) (r : RecurrenceRule),
      dictGet (parsePairs s) "FREQ".data = none →
      fromIcalString s = .ok r → r.frequency = .daily) := by
  constructor
  · decide
  · intro s r hfreq hok
    unfold fromIcalString at hok
    rw [hfreq] at hok
    split at hok
    · cases hok
    · split at hok
      · rw [mkRecurrenceRule_ok hok]
        rfl
      · split at hok
        · split at hok
          · cases hok
          · rw [mkRecurrenceRule_ok hok]
            rfl
        · rw [mkRecurrenceRule_ok hok]
          rfl

/-- Claim C5, witness: a concrete FREQ-less text decodes to a Daily rule. -/
theorem C5_witness :
    RecurrenceRule.frequency ⟨.daily, 1, none, some 2, none⟩ = .daily :=
  C5_lenient_decode.2 "COUNT=2".data ⟨.daily, 1, none, some 2, none⟩
    (by decide) (by decide)

/-- Claim C6: resolving the percent-encoded identifier "A%20B" over
collections containing a record whose native identifier is the unencoded
"A B" returns that record (decoded-equality match) rather than not-found. -/
theorem C6_percent_decoded_resolution :
    findEventById resolverCals "A%20B".data = some spacedIdRecord := by decide

/-- Claim C7: searching three collections where the second one's query
raises returns exactly the successfully decoded records of the first and
third collections, in order, as a normal (non-error) result. -/
theorem C7_search_isolation (c1 c3 : CalendarModel) (nm : Str) (err : String)
    (ev : Except String (List CaldavRecord)) (st en : PyDateTime) :
    listEvents [c1, ⟨nm, fun _ _ => .error err, ev⟩, c3] none st en =
      .ok (okDecodes st en c1 ++ okDecodes st en c3) := by
  show (Except.ok
      (([c1, ⟨nm, fun _ _ => .error err, ev⟩, c3].map (okDecodes st en)).flatten) :
      Except String (List Event)) =
    Except.ok (okDecodes st en c1 ++ okDecodes st en c3)
  rw [List.map_cons, List.map_cons, List.map_cons, List.map_nil]
  rw [show okDecodes st en ⟨nm, fun _ _ => .error err, ev⟩ = [] from rfl]
  simp

/-- Claim C8: patching an event with a request that sets only the title
yields exactly the original record with the summary replaced — location,
notes, recurrence, alarms, attendees and the unrecognized sub-structures are
all untouched. -/
theorem C8_patch_frame (v : VEvent) (t s : Str) (h : v.summary = some s) :
    patchVEvent (titleOnlyRequest t) v = .ok { v with summary := some t } := by
  unfold patchVEvent titleOnlyRequest emptyRequest
  simp only [stepTitle, stepStart, stepEnd, stepLocation, stepNotes, stepUrl,
    stepAllDay, stepAlarms, stepRRule, h, okBind]

/-- Claim C8, witness: a concrete title-only patch leaves the other fields
of the record unchanged. -/
theorem C8_witness :
    patchVEvent (titleOnlyRequest "New title".data)
      ⟨some "Old".data, none, none, some "Loc".data, some "Notes".data, none,
        none, [], some "FREQ=DAILY".data, none, [], [("X-VENDOR".data, "1".data)]⟩ =
      .ok ⟨some "New title".data, none, none, some "Loc".data, some "Notes".data,
        none, none, [], some "FREQ=DAILY".data, none, [],
        [("X-VENDOR".data, "1".data)]⟩ :=
  C8_patch_frame _ _ "Old".data rfl

/-- Claim C9, counterexample: the claim states decode succeeds on every
record with the structural vevent container; `badRRuleRecord` has the
container, yet decode fails because its RRULE text carries `INTERVAL=0`,
which the rule constructor rejects, and that error propagates out of the
decoder. -/
theorem C9_counterexample : (fromCaldavEvent badRRuleRecord).isOk = false := by
  decide

/-- Claim C9 (amended): decode raises exactly for records lacking the
structural vevent container and for records whose RRULE text fails to parse;
every other record decodes successfully, a missing title becoming the
literal placeholder 'No Title'. -/
theorem C9_defensive_decode :
    (∀ r : CaldavRecord, r.data.vevent = none →
      fromCaldavEvent r = .error "Event data has no vevent component") ∧
    (∀ (r : CaldavRecord) (v : VEvent), r.data.vevent = some v →
      (match v.rrule with
       | some s => (fromIcalString s).isOk = true
       | none => True) →
      ∃ ev, fromCaldavEvent r = .ok ev ∧
        (v.summary = none → ev.title = "No Title".data)) := by
  constructor
  · intro r h
    unfold fromCaldavEvent
    rw [h]
  · intro r v h hrr
    have hred : fromCaldavEvent r = decodeVEvent r v := by
      unfold fromCaldavEvent
      rw [h]
    rw [hred]
    unfold decodeVEvent
    rcases hr : v.rrule with _ | s
    · refine ⟨_, rfl, fun hs => ?_⟩
      show (v.summary).getD "No Title".data = "No Title".data
      rw [hs]
      rfl
    · have hok2 : (fromIcalString s).isOk = true := by
        rw [hr] at hrr
        exact hrr
      rw [show decodeRRule (some s) = (fromIcalString s).map some from rfl]
      rcases hok : fromIcalString s with e | rr
      · rw [hok] at hok2
        cases hok2
      · refine ⟨_, rfl, fun hs => ?_⟩
        show (v.summary).getD "No Title".data = "No Title".data
        rw [hs]
        rfl

/-- Claim C9, witness: a record with the container and no fields at all
decodes successfully with the placeholder title. -/
theorem C9_witness :
    ∃ ev, fromCaldavEvent bareRecord = .ok ev ∧
      ((⟨none, none, none, none, none, none, none, [], none, none, [], []⟩ :
        VEvent).summary = none → ev.title = "No Title".data) :=
  C9_defensive_decode.2 bareRecord
    ⟨none, none, none, none, none, none, none, [], none, none, [], []⟩
    rfl trivial

theorem stepTitle_preserves {req : UpdateEventRequest} {v w : VEvent}
    (h : stepTitle req v = .ok w) :
    w.location = v.location ∧ w.description = v.description ∧ w.url = v.url := by
  unfold stepTitle at h
  split at h
  · cases h
    exact ⟨rfl, rfl, rfl⟩
  · split at h
    · cases h
    · cases h
      exact ⟨rfl, rfl, rfl⟩

theorem stepStart_preserves {req : UpdateEventRequest} {v w : VEvent}
    (h : stepStart req v = .ok w) :
    w.location = v.location ∧ w.description = v.description ∧ w.url = v.url := by
  unfold stepStart at h
  split at h
  · cases h
    exact ⟨rfl, rfl, rfl⟩
  · split at h
    · cases h
    · cases h
      exact ⟨rfl, rfl, rfl⟩

theorem stepEnd_preserves {req : UpdateEventRequest} {v w : VEvent}
    (h : stepEnd req v = .ok w) :
    w.location = v.location ∧ w.description = v.description ∧ w.url = v.url := by
  unfold stepEnd at h
  split at h
  · cases h
    exact ⟨rfl, rfl, rfl⟩
  · split at h
    · cases h
    · cases h
      exact ⟨rfl, rfl, rfl⟩

theorem stepLocation_preserves {req : UpdateEventRequest} {v w : VEvent}
    (h : stepLocation req v = .ok w) :
    w.description = v.description ∧ w.url = v.url := by
  unfold stepLocation at h
  split at h
  · cases h
    exact ⟨rfl, rfl⟩
  · split at h
    · cases h
    · cases h
      exact ⟨rfl, rfl⟩

theorem stepNotes_preserves {req : UpdateEventRequest} {v w : VEvent}
    (h : stepNotes req v = .ok w) : w.url = v.url := by
  unfold stepNotes at h
  split at h
  · cases h
    rfl
  · split at h
    · cases h
    · cases h
      rfl

theorem stepLocation_ok_some {req : UpdateEventRequest} {v w : VEvent}
    (h : stepLocation req v = .ok w) (hreq : req.location.isSome = true) :
    v.location.isSome = true := by
  unfold stepLocation at h
  split at h
  · rename_i heq
    rw [heq] at hreq
    cases hreq
  · split at h
    · cases h
    · rename_i s heq
      rw [heq]
      rfl

theorem stepNotes_ok_some {req : UpdateEventRequest} {v w : VEvent}
    (h : stepNotes req v = .ok w) (hreq : req.notes.isSome = true) :
    v.description.isSome = true := by
  unfold stepNotes at h
  split at h
  · rename_i heq
    rw [heq] at hreq
    cases hreq
  · split at h
    · cases h
    · rename_i s heq
      rw [heq]
      rfl

theorem stepUrl_ok_some {req : UpdateEventRequest} {v w : VEvent}
    (h : stepUrl req v = .ok w) (hreq : req.url.isSome = true) :
    v.url.isSome = true := by
  unfold stepUrl at h
  split at h
  · rename_i heq
    rw [heq] at hreq
    cases hreq
  · split at h
    · cases h
    · rename_i s heq
      rw [heq]
      rfl

theorem patch_ok_parts {req : UpdateEventRequest} {v w : VEvent}
    (h : patchVEvent req v = .ok w) :
    ∃ a1 a2 a3 a4 a5 a6,
      stepTitle req v = .ok a1 ∧ stepStart req a1 = .ok a2 ∧
      stepEnd req a2 = .ok a3 ∧ stepLocation req a3 = .ok a4 ∧
      stepNotes req a4 = .ok a5 ∧ stepUrl req a5 = .ok a6 := by
  unfold patchVEvent at h
  obtain ⟨x8, hc8, _⟩ := (bindOk _ _ _).mp h
  obtain ⟨x7, hc7, _⟩ := (bindOk _ _ _).mp hc8
  obtain ⟨x6, hc6, _⟩ := (bindOk _ _ _).mp hc7
  obtain ⟨x5, hc5, hUrl⟩ := (bindOk _ _ _).mp hc6
  obtain ⟨x4, hc4, hNotes⟩ := (bindOk _ _ _).mp hc5
  obtain ⟨x3, hc3, hLoc⟩ := (bindOk _ _ _).mp hc4
  obtain ⟨x2, hc2, hEnd⟩ := (bindOk _ _ _).mp hc3
  obtain ⟨x1, hTitle, hStart⟩ := (bindOk _ _ _).mp hc2
  exact ⟨x1, x2, x3, x4, x5, x6, hTitle, hStart, hEnd, hLoc, hNotes, hUrl⟩

/-- Claim C10: the patch can only overwrite fields the record already
carries — a request setting `location`, `notes` ("description"), or `url` on
a record whose component lacks that field makes the patch raise instead of
adding the field. -/
theorem C10_patch_requires_field (v : VEvent) (req : UpdateEventRequest) :
    (req.location.isSome = true → v.location = none →
      ∃ e, patchVEvent req v = .error e) ∧
    (req.notes.isSome = true → v.description = none →
      ∃ e, patchVEvent req v = .error e) ∧
    (req.url.isSome = true → v.url = none →
      ∃ e, patchVEvent req v = .error e) := by
  refine ⟨?_, ?_, ?_⟩
  · intro hreq hv
    rcases hres : patchVEvent req v with e | w
    · exact ⟨e, rfl⟩
    · exfalso
      obtain ⟨a1, a2, a3, a4, a5, a6, ht, hs, he, hl, hn, hu⟩ :=
        patch_ok_parts hres
      have hsome := stepLocation_ok_some hl hreq
      rw [(stepEnd_preserves he).1, (stepStart_preserves hs).1,
        (stepTitle_preserves ht).1, hv] at hsome
      cases hsome
  · intro hreq hv
    rcases hres : patchVEvent req v with e | w
    · exact ⟨e, rfl⟩
    · exfalso
      obtain ⟨a1, a2, a3, a4, a5, a6, ht, hs, he, hl, hn, hu⟩ :=
        patch_ok_parts hres
      have hsome := stepNotes_ok_some hn hreq
      rw [(stepLocation_preserves hl).1, (stepEnd_preserves he).2.1,
        (stepStart_preserves hs).2.1, (stepTitle_preserves ht).2.1, hv] at hsome
      cases hsome
  · intro hreq hv
    rcases hres : patchVEvent req v with e | w
    · exact ⟨e, rfl⟩
    · exfalso
      obtain ⟨a1, a2, a3, a4, a5, a6, ht, hs, he, hl, hn, hu⟩ :=
        patch_ok_parts hres
      have hsome := stepUrl_ok_some hu hreq
      rw [stepNotes_preserves hn, (stepLocation_preserves hl).2,
        (stepEnd_preserves he).2.2, (stepStart_preserves hs).2.2,
        (stepTitle_preserves ht).2.2, hv] at hsome
      cases hsome

/-- Claim C10, witness: patching the location of a record that has no
location field raises. -/
theorem C10_witness :
    ∃ e, patchVEvent { emptyRequest with location := some "Office".data }
      ⟨some "Old".data, none, none, none, none, none, none, [], none, none,
        [], []⟩ = .error e :=
  (C10_patch_requires_field
    ⟨some "Old".data, none, none, none, none, none, none, [], none, none,
      [], []⟩
    { emptyRequest with location := some "Office".data }).1 rfl rfl

end McpIcal
